import Mathlib

/-!
Shallow embedding of `src/pixel_loop.rs` (crate `pixel_loop`).

Conventions:
* `u8` components are modelled as `Nat` (only stored and compared, never
  computed with, so no wrap-around modelling is needed).
* `Duration` values are modelled as `Nat` nanoseconds.
* `Result<T>` is modelled as `Except ε` with an abstract error type `ε`.
* The `DrawingSurface` trait's primitive `set_range(range, color)` writes
  `color` to every pixel whose linear (row-major) index falls in the
  half-open range, as the `PixelsSurface` implementation does by copying
  the 4 colour bytes into each 4-byte chunk of the byte range
  `range.start * 4 .. range.end * 4`.  A surface is therefore modelled as
  its dimensions plus a map from linear pixel index to `Color`.
-/

/-- `Color { bytes: [u8; 4] }` from the source, with the 4 bytes as a list. -/
structure Color where
  bytes : List Nat
deriving DecidableEq

namespace Color

/-- `pub fn from_rgba(r: u8, b: u8, g: u8, a: u8) -> Self { Self { bytes: [r, g, b, a] } }`.
The parameter names and their order `(r, b, g, a)` are exactly those of the
source; the stored array is `[r, g, b, a]`. -/
def from_rgba (r b g a : Nat) : Color :=
  { bytes := [r, g, b, a] }

/-- `pub fn from_rgb(r: u8, b: u8, g: u8) -> Self { Self::from_rgba(r, g, b, 255) }`.
Again parameter names `(r, b, g)` and the positional call `from_rgba(r, g, b, 255)`
are exactly those of the source. -/
def from_rgb (r b g : Nat) : Color :=
  Color.from_rgba r g b 255

/-- `pub fn as_bytes(&self) -> &[u8; 4] { &self.bytes }`. -/
def as_bytes (c : Color) : List Nat :=
  c.bytes

end Color

/-- A drawing surface: dimensions plus the pixel contents, addressed by the
row-major linear index `y * width + x` (spec §3).  This models the state a
`DrawingSurface` backend exposes through `width()`, `height()` and the
pixel read/write primitives. -/
structure Surface where
  width : Nat
  height : Nat
  pix : Nat → Color

namespace Surface

/-- `fn set_range(&mut self, range: Range<usize>, color: &Color)`: every
pixel whose linear index lies in `[lo, hi)` becomes `color`; nothing else
changes. -/
def set_range (s : Surface) (lo hi : Nat) (c : Color) : Surface :=
  { s with pix := fun i => if lo ≤ i ∧ i < hi then c else s.pix i }

/-- Default trait method
`fn clear_screen(&mut self, color: &Color) { self.set_range(0..(self.height() * self.width()) as usize, &color); }`. -/
def clear_screen (s : Surface) (c : Color) : Surface :=
  s.set_range 0 (s.height * s.width) c

end Surface

/-- The row loop of `filled_rect`: `for y in sy..sy+height { self.set_range((y*self.width()+sx)..(y*self.width()+sx+width), color) }`,
unrolled as structural recursion on the number of remaining rows.  `y` is
the current row, `rows` the number of rows still to write; the width used
for the index computation is the width of the current surface, exactly as
`self.width()` is re-read on every iteration in the source. -/
def filledRectAux (sx w : Nat) (c : Color) : Nat → Nat → Surface → Surface
  | _, 0, s => s
  | y, rows + 1, s =>
      filledRectAux sx w c (y + 1) rows
        (s.set_range (y * s.width + sx) (y * s.width + sx + w) c)

/-- Default trait method
`fn filled_rect(&mut self, sx: u32, sy: u32, width: u32, height: u32, color: &Color)`. -/
def Surface.filled_rect (s : Surface) (sx sy w h : Nat) (c : Color) : Surface :=
  filledRectAux sx w c sy h s

/-- The fixed update step derived in `PixelLoop::new`:
`Duration::from_nanos((1_000_000_000f64 / update_fps as f64).round() as u64)`.
For every `update_fps ≥ 1` the `f64` computation returns exactly the
half-away-from-zero rounding of the rational `1_000_000_000 / update_fps`
(the quotient is at most `10^9`, so the relative error of the conversion
and of the division, below `2^-51`, is far smaller than the distance from
the exact quotient to the nearest half-integer boundary, which is at least
`1 / (2 * update_fps)`; exact half-integer quotients are hit only for
divisors of `2 * 10^9` with an exactly representable quotient, where the
division is exact and `.round()` rounds the tie away from zero).  For a
positive argument that rounding is `⌊(2 * 10^9 + fps) / (2 * fps)⌋`, which
is what this definition computes over `Nat`. -/
def timestepOfFps (update_fps : Nat) : Nat :=
  (2 * 1000000000 + update_fps) / (2 * update_fps)

/-- The loop state of `struct PixelLoop<State, Surface>`.  The two `Instant`
fields `current_time`/`last_time` only ever feed the difference
`current_time - last_time` at the top of `next_loop`; that measured elapsed
time is passed to `nextLoop` as an explicit argument instead, so the
timestamps themselves are not part of the model.  The application state and
the drawing surface, which the callbacks receive together by mutable
reference, are bundled into the single state type `σ`; errors are `ε`. -/
structure PixelLoop (σ ε : Type) where
  accumulator : Nat
  update_timestep : Nat
  state : σ
  update : σ → Except ε σ
  render : σ → Nat → Except ε σ

namespace PixelLoop

/-- `PixelLoop::new(update_fps, state, surface, update, render)`: aborts
(`none`) when `update_fps == 0`, otherwise starts with a zero accumulator
and the derived fixed timestep. -/
def new (update_fps : Nat) (state : σ) (update : σ → Except ε σ)
    (render : σ → Nat → Except ε σ) : Option (PixelLoop σ ε) :=
  if update_fps = 0 then
    none
  else
    some { accumulator := 0, update_timestep := timestepOfFps update_fps,
           state := state, update := update, render := render }

end PixelLoop

/-- The clamp at the top of `next_loop`:
`if dt > Duration::from_millis(100) { dt = Duration::from_millis(100); }`,
in nanoseconds. -/
def clampDt (dt : Nat) : Nat :=
  if dt > 100000000 then 100000000 else dt

/-- The drain loop of `next_loop`:
`while self.accumulator > self.update_timestep { (self.update)(..)?; self.accumulator -= self.update_timestep; }`.
Returns the state after the successful update calls, the remaining
accumulator, the number of successful update invocations, and the error of
the failing update call if one failed (in which case state and accumulator
are those reached before that call, matching the early return of `?`).
The hypothesis `0 < s` reflects that the source loop only terminates for a
positive timestep. -/
def drain (u : σ → Except ε σ) (s : Nat) (hs : 0 < s) (a : Nat) (st : σ) :
    σ × Nat × Nat × Option ε :=
  if h : a > s then
    match u st with
    | Except.error e => (st, a, 0, some e)
    | Except.ok st2 =>
        let r := drain u s hs (a - s) st2
        (r.1, r.2.1, r.2.2.1 + 1, r.2.2.2)
  else
    (st, a, 0, none)
termination_by a
decreasing_by omega

/-- The number of update invocations the claims describe: how often the
accumulator `a`, decremented by the step `s` repeatedly, remains strictly
greater than `s`. -/
def drainCount (s : Nat) (hs : 0 < s) (a : Nat) : Nat :=
  if a > s then drainCount s hs (a - s) + 1 else 0
termination_by a
decreasing_by omega

/-- `PixelLoop::next_loop(&mut self) -> Result<()>`, with the measured
elapsed time `current_time - last_time` supplied as `elapsed`.  Returns the
loop as left behind by the tick, the number of successful update
invocations (a ghost observation that does not influence the control flow),
and the propagated result: the clamped `dt` is computed, the accumulator is
drained through `update` (aborting the tick on error), `render` runs once
with `dt` (aborting on error), and only then is `dt` added to the
accumulator. -/
def nextLoop (p : PixelLoop σ ε) (hs : 0 < p.update_timestep)
    (elapsed : Nat) : PixelLoop σ ε × Nat × Except ε Unit :=
  let dt := clampDt elapsed
  match drain p.update p.update_timestep hs p.accumulator p.state with
  | (st, a, n, some e) =>
      ({ p with state := st, accumulator := a }, n, Except.error e)
  | (st, a, n, none) =>
      match p.render st dt with
      | Except.error e =>
          ({ p with state := st, accumulator := a }, n, Except.error e)
      | Except.ok st2 =>
          ({ p with state := st2, accumulator := a + dt }, n, Except.ok ())

section ColorClaims

/-- Claim C1 counterexample: `from_rgba` called positionally with
`(0, 1, 2, 3)` stores `[0, 2, 1, 3]`, not `[0, 1, 2, 3]`: the source
declares the parameters in the order `(r, b, g, a)` and stores
`[r, g, b, a]`, so the second and third positional arguments land swapped. -/
theorem from_rgba_positional_counterexample :
    (Color.from_rgba 0 1 2 3).as_bytes ≠ [0, 1, 2, 3] := by
  decide

/-- Claim C1 (amended): for all byte values `p1 p2 p3 p4`, the `Color`
built by `from_rgba` with positional arguments `(p1, p2, p3, p4)` has
`as_bytes()` equal to `[p1, p3, p2, p4]` in storage order — the second and
third positional arguments are exchanged relative to the claimed
`[p1, p2, p3, p4]`. -/
theorem from_rgba_positional_bytes (p1 p2 p3 p4 : Nat) :
    (Color.from_rgba p1 p2 p3 p4).as_bytes = [p1, p3, p2, p4] :=
  rfl

/-- Claim C2 counterexample: `from_rgb(0, 1, 2)` stores `[0, 1, 2, 255]`
while `from_rgba(0, 1, 2, 255)` stores `[0, 2, 1, 255]`; the two
constructions differ, refuting the claim that `from_rgb(p1, p2, p3)` equals
`from_rgba(p1, p2, p3, 255)` positionally. -/
theorem from_rgb_eq_from_rgba_counterexample :
    Color.from_rgb 0 1 2 ≠ Color.from_rgba 0 1 2 255 := by
  decide

/-- Claim C2 (amended): for all byte values `p1 p2 p3`, `from_rgb` called
positionally with `(p1, p2, p3)` produces the same `Color` as `from_rgba`
called positionally with `(p1, p3, p2, 255)` — the alpha default of 255
holds, but the second and third positional arguments must be exchanged. -/
theorem from_rgb_eq_from_rgba_swapped (p1 p2 p3 : Nat) :
    Color.from_rgb p1 p2 p3 = Color.from_rgba p1 p3 p2 255 :=
  rfl

/-- Claim C10: for all byte values `p1 p2 p3`, the `Color` built by
`from_rgb` with positional arguments `(p1, p2, p3)` has `as_bytes()` equal
to `[p1, p2, p3, 255]`: the positional swap inside `from_rgb`'s call to
`from_rgba` and the swap inside `from_rgba`'s parameter order cancel. -/
theorem from_rgb_positional_bytes (p1 p2 p3 : Nat) :
    (Color.from_rgb p1 p2 p3).as_bytes = [p1, p2, p3, 255] :=
  rfl

end ColorClaims

section SurfaceLemmas

/-- Membership of the linear index of pixel `(x, y)` in the range issued by
`filled_rect` for row `y0`: when the rectangle does not reach past the
right edge, the range `[y0*W + sx, y0*W + sx + w)` contains `y*W + x`
exactly when `y = y0` and `x` lies in the column span. -/
theorem rowRangeMem (W x y y0 sx w : Nat) (hx : x < W) (hw : sx + w ≤ W) :
    (y0 * W + sx ≤ y * W + x ∧ y * W + x < y0 * W + sx + w) ↔
      (y = y0 ∧ sx ≤ x ∧ x < sx + w) := by
  rcases Nat.lt_trichotomy y y0 with h | h | h
  · have h1 : (y + 1) * W ≤ y0 * W := Nat.mul_le_mul_right W h
    have h2 : (y + 1) * W = y * W + W := Nat.succ_mul y W
    have h3 : y ≠ y0 := by omega
    omega
  · subst h
    omega
  · have h1 : (y0 + 1) * W ≤ y * W := Nat.mul_le_mul_right W h
    have h2 : (y0 + 1) * W = y0 * W + W := Nat.succ_mul y0 W
    have h3 : y ≠ y0 := by omega
    omega

/-- Net effect of the row loop of `filled_rect` on a single pixel. -/
theorem filledRectAux_pix (sx w : Nat) (c : Color) :
    ∀ (rows y0 : Nat) (s : Surface) (x y : Nat), x < s.width → sx + w ≤ s.width →
      (filledRectAux sx w c y0 rows s).pix (y * s.width + x) =
        if y0 ≤ y ∧ y < y0 + rows ∧ sx ≤ x ∧ x < sx + w then c
        else s.pix (y * s.width + x) := by
  intro rows
  induction rows with
  | zero =>
    intro y0 s x y hx hw
    show s.pix (y * s.width + x) = _
    rw [if_neg]
    omega
  | succ n ih =>
    intro y0 s x y hx hw
    have hmem := rowRangeMem s.width x y y0 sx w hx hw
    have hstep := ih (y0 + 1) (s.set_range (y0 * s.width + sx) (y0 * s.width + sx + w) c) x y hx hw
    have hw1 : (s.set_range (y0 * s.width + sx) (y0 * s.width + sx + w) c).width = s.width := rfl
    rw [hw1] at hstep
    show (filledRectAux sx w c (y0 + 1) n
        (s.set_range (y0 * s.width + sx) (y0 * s.width + sx + w) c)).pix (y * s.width + x) = _
    rw [hstep]
    have hset : (s.set_range (y0 * s.width + sx) (y0 * s.width + sx + w) c).pix (y * s.width + x) =
        if y0 * s.width + sx ≤ y * s.width + x ∧ y * s.width + x < y0 * s.width + sx + w then c
        else s.pix (y * s.width + x) := rfl
    rw [hset]
    by_cases hA : y0 + 1 ≤ y ∧ y < y0 + 1 + n ∧ sx ≤ x ∧ x < sx + w
    · rw [if_pos hA, if_pos (by omega)]
    · rw [if_neg hA]
      by_cases hB : y = y0 ∧ sx ≤ x ∧ x < sx + w
      · rw [if_pos (hmem.mpr hB), if_pos (by omega)]
      · rw [if_neg (fun hc => hB (hmem.mp hc)), if_neg (by omega)]

end SurfaceLemmas

section SurfaceClaims

/-- Claim C4: under the precondition `start_x + w ≤ width` and
`start_y + h ≤ height`, `filled_rect` changes exactly the pixels with
`x ∈ [start_x, start_x + w)` and `y ∈ [start_y, start_y + h)` — every pixel
inside the rectangle becomes `color`, every pixel outside keeps its prior
value — and the `set_range` issued for each row `y` covers
`[y*width + start_x, y*width + start_x + w)`, which lies inside that row's
slice `[y*width, (y+1)*width)`, so no call crosses a row boundary. -/
theorem filled_rect_exact (s : Surface) (sx sy w h : Nat) (c : Color)
    (hxw : sx + w ≤ s.width) (hyh : sy + h ≤ s.height) :
    (∀ x y, x < s.width → y < s.height →
      (s.filled_rect sx sy w h c).pix (y * s.width + x) =
        if sx ≤ x ∧ x < sx + w ∧ sy ≤ y ∧ y < sy + h then c
        else s.pix (y * s.width + x)) ∧
    (∀ y, sy ≤ y → y < sy + h →
      y * s.width ≤ y * s.width + sx ∧ y * s.width + sx + w ≤ (y + 1) * s.width) := by
  constructor
  · intro x y hx hy
    rw [Surface.filled_rect, filledRectAux_pix sx w c h sy s x y hx hxw]
    by_cases hcond : sy ≤ y ∧ y < sy + h ∧ sx ≤ x ∧ x < sx + w
    · rw [if_pos hcond, if_pos (by omega)]
    · rw [if_neg hcond, if_neg (by omega)]
  · intro y hy1 hy2
    have h2 : (y + 1) * s.width = y * s.width + s.width := Nat.succ_mul y s.width
    omega

/-- Claim C4 witness: on a 4×4 surface whose pixel `i` initially holds
`from_rgba i 0 0 0`, `filled_rect 1 1 2 2 c` paints pixel `(1, 1)` with `c`
and leaves pixel `(3, 0)` — outside the rectangle, in the row the rectangle
starts in — at its prior value. -/
theorem filled_rect_exact_witness :
    (Surface.filled_rect ⟨4, 4, fun i => Color.from_rgba i 0 0 0⟩ 1 1 2 2
        (Color.from_rgb 5 6 7)).pix (1 * 4 + 1) = Color.from_rgb 5 6 7 ∧
    (Surface.filled_rect ⟨4, 4, fun i => Color.from_rgba i 0 0 0⟩ 1 1 2 2
        (Color.from_rgb 5 6 7)).pix (0 * 4 + 3) = Color.from_rgba 3 0 0 0 := by
  have h := (filled_rect_exact ⟨4, 4, fun i => Color.from_rgba i 0 0 0⟩ 1 1 2 2
    (Color.from_rgb 5 6 7) (by decide) (by decide)).1
  constructor
  · have h1 := h 1 1 (by decide) (by decide)
    rw [if_pos (by omega)] at h1
    exact h1
  · have h2 := h 3 0 (by decide) (by decide)
    rw [if_neg (by omega)] at h2
    exact h2

/-- Claim C8: `clear_screen(color)` is the single `set_range` call over the
half-open linear range `0 .. width*height`, and as a result every pixel of
the surface becomes `color`, for a surface of any width and height. -/
theorem clear_screen_all_pixels (s : Surface) (c : Color) :
    s.clear_screen c = s.set_range 0 (s.width * s.height) c ∧
    ∀ x y, x < s.width → y < s.height →
      (s.clear_screen c).pix (y * s.width + x) = c := by
  constructor
  · show s.set_range 0 (s.height * s.width) c = _
    rw [Nat.mul_comm]
  · intro x y hx hy
    have h1 : (y + 1) * s.width ≤ s.height * s.width :=
      Nat.mul_le_mul_right s.width (by omega)
    have h2 : (y + 1) * s.width = y * s.width + s.width := Nat.succ_mul y s.width
    show (if 0 ≤ y * s.width + x ∧ y * s.width + x < s.height * s.width then c
        else s.pix (y * s.width + x)) = c
    rw [if_pos (by constructor <;> omega)]

/-- Claim C8 witness: on a 4×4 surface, clearing with
`from_rgb(10, 20, 30)` makes the last pixel `(3, 3)` that color. -/
theorem clear_screen_all_pixels_witness :
    (Surface.clear_screen ⟨4, 4, fun _ => Color.from_rgb 0 0 0⟩
        (Color.from_rgb 10 20 30)).pix (3 * 4 + 3) = Color.from_rgb 10 20 30 := by
  exact (clear_screen_all_pixels ⟨4, 4, fun _ => Color.from_rgb 0 0 0⟩
    (Color.from_rgb 10 20 30)).2 3 3 (by decide) (by decide)

end SurfaceClaims

section LoopLemmas

/-- Unfolding of `nextLoop` into its drain/render/accumulate pipeline. -/
theorem nextLoop_eq (σ ε : Type) (p : PixelLoop σ ε) (hs : 0 < p.update_timestep) (e : Nat) :
    nextLoop p hs e =
      match drain p.update p.update_timestep hs p.accumulator p.state with
      | (st, a, n, some er) => ({ p with state := st, accumulator := a }, n, Except.error er)
      | (st, a, n, none) =>
          match p.render st (clampDt e) with
          | Except.error er => ({ p with state := st, accumulator := a }, n, Except.error er)
          | Except.ok st2 =>
              ({ p with state := st2, accumulator := a + clampDt e }, n, Except.ok ()) := rfl

/-- With an update callback that always succeeds, the drain loop performs
exactly `drainCount` update invocations and reports no error. -/
theorem drain_pure (σ ε : Type) (f : σ → σ) (s : Nat) (hs : 0 < s) :
    ∀ a st, (drain (ε := ε) (fun x => Except.ok (f x)) s hs a st).2.2.1 = drainCount s hs a ∧
      (drain (ε := ε) (fun x => Except.ok (f x)) s hs a st).2.2.2 = none := by
  intro a
  induction a using Nat.strong_induction_on with
  | _ a ih =>
    intro st
    rw [drain, drainCount]
    by_cases h : a > s
    · simp only [h, dif_pos, if_pos]
      have := ih (a - s) (by omega) (f st)
      simp only [this.1, this.2]
      simp
    · simp [h]

/-- With the identity update callback, the drain loop leaves the state
untouched. -/
theorem drain_id_state (σ ε : Type) (s : Nat) (hs : 0 < s) :
    ∀ a st, (drain (ε := ε) (fun x : σ => Except.ok x) s hs a st).1 = st := by
  intro a
  induction a using Nat.strong_induction_on with
  | _ a ih =>
    intro st
    rw [drain]
    by_cases h : a > s
    · simp only [h, dif_pos]
      exact ih (a - s) (by omega) st
    · simp [h]

end LoopLemmas

section LoopClaims

/-- Claim C3: in one `next_loop` tick with an update callback that always
succeeds, `update` is invoked exactly as many times as the accumulator,
decremented by `update_timestep` repeatedly, remains strictly greater than
`update_timestep` (`drainCount`); in particular, when the accumulator
equals `update_timestep` exactly at the start of the drain, zero updates
fire that tick. -/
theorem next_loop_update_count (σ ε : Type) (p : PixelLoop σ ε) (f : σ → σ)
    (hu : p.update = fun x => Except.ok (f x)) (hs : 0 < p.update_timestep) (e : Nat) :
    (nextLoop p hs e).2.1 = drainCount p.update_timestep hs p.accumulator ∧
      (p.accumulator = p.update_timestep → (nextLoop p hs e).2.1 = 0) := by
  have hmain : (nextLoop p hs e).2.1 = drainCount p.update_timestep hs p.accumulator := by
    rw [nextLoop_eq, hu]
    have hp := drain_pure σ ε f p.update_timestep hs p.accumulator p.state
    rcases hd : drain (ε := ε) (fun x => Except.ok (f x)) p.update_timestep hs p.accumulator p.state
      with ⟨st1, a1, n1, er⟩
    rw [hd] at hp
    have hn : n1 = drainCount p.update_timestep hs p.accumulator := hp.1
    have her : er = none := hp.2
    subst her
    subst hn
    rcases hr : p.render st1 (clampDt e) with e2 | st2 <;> simp [hr]
  refine ⟨hmain, fun hae => ?_⟩
  rw [hmain, hae, drainCount]
  simp

/-- Claim C3 witness: with step 2 and accumulator 7, one tick runs exactly
3 updates (7 → 5 → 3 each strictly above 2, then 3 - 2 = 1 stops). -/
theorem next_loop_update_count_witness :
    (nextLoop ({ accumulator := 7, update_timestep := 2, state := 0,
                 update := fun x => Except.ok (x + 1),
                 render := fun x _ => Except.ok x } : PixelLoop Nat Unit)
        (by decide) 5).2.1 = 3 := by
  have h := (next_loop_update_count Nat Unit
    { accumulator := 7, update_timestep := 2, state := 0,
      update := fun x => Except.ok (x + 1),
      render := fun x _ => Except.ok x }
    (fun x => x + 1) rfl (by decide) 5).1
  exact h.trans (by simp [drainCount])

/-- Claim C5: for every measured elapsed time `e` between two consecutive
ticks, the `dt` that `next_loop` passes to `render` and later adds to the
accumulator is `clampDt e`, which never exceeds 100 ms (100,000,000 ns):
with a recording render callback, the recorded value is `clampDt e` and the
post-tick accumulator is the drained accumulator plus that same value. -/
theorem next_loop_dt_clamped (σ ε : Type) (p : PixelLoop σ ε) (emb : Nat → σ)
    (hu : p.update = fun x => Except.ok x)
    (hrend : p.render = fun _ d => Except.ok (emb d))
    (hs : 0 < p.update_timestep) (e : Nat) :
    clampDt e ≤ 100000000 ∧
      (nextLoop p hs e).1.state = emb (clampDt e) ∧
      (nextLoop p hs e).1.accumulator =
        (drain p.update p.update_timestep hs p.accumulator p.state).2.1 + clampDt e ∧
      (nextLoop p hs e).2.2 = Except.ok () := by
  have hclamp : clampDt e ≤ 100000000 := by
    rw [clampDt]
    by_cases h : e > 100000000
    · rw [if_pos h]
    · rw [if_neg h]; omega
  refine ⟨hclamp, ?_⟩
  rw [nextLoop_eq, hu]
  have hp := drain_pure σ ε (fun x => x) p.update_timestep hs p.accumulator p.state
  have hid := drain_id_state σ ε p.update_timestep hs p.accumulator p.state
  rcases hd : drain (ε := ε) (fun x => Except.ok x) p.update_timestep hs p.accumulator p.state
    with ⟨st1, a1, n1, er⟩
  rw [hd] at hp hid
  have her : er = none := hp.2
  subst her
  rw [hrend]
  simp [hu, hd]

/-- Claim C5 witness: a measured elapsed time of 250 ms is fed onward as
exactly 100 ms. -/
theorem next_loop_dt_clamped_witness :
    clampDt 250000000 ≤ 100000000 ∧
      (nextLoop ({ accumulator := 0, update_timestep := 1, state := 0,
                   update := fun x => Except.ok x,
                   render := fun _ d => Except.ok d } : PixelLoop Nat Unit)
          (by decide) 250000000).1.state = 100000000 := by
  have h := next_loop_dt_clamped Nat Unit
    { accumulator := 0, update_timestep := 1, state := 0,
      update := fun x => Except.ok x,
      render := fun _ d => Except.ok d }
    (fun d => d) rfl rfl (by decide) 250000000
  exact ⟨h.1, h.2.1.trans (by norm_num [clampDt])⟩

/-- Claim C6: if the update callback fails during a tick, the tick is
abandoned at that point: `next_loop` returns exactly the update error, the
loop keeps the state and accumulator reached by the drain (so `render` was
never applied and the accumulator is not incremented); likewise, if the
drain succeeds and `render` fails, the render error is propagated unchanged
with no accumulator increment. -/
theorem next_loop_error_propagation (σ ε : Type) (p : PixelLoop σ ε)
    (hs : 0 < p.update_timestep) (e : Nat) :
    (∀ st a n er, drain p.update p.update_timestep hs p.accumulator p.state = (st, a, n, some er) →
      nextLoop p hs e = ({ p with state := st, accumulator := a }, n, Except.error er)) ∧
    (∀ st a n er, drain p.update p.update_timestep hs p.accumulator p.state = (st, a, n, none) →
      p.render st (clampDt e) = Except.error er →
      nextLoop p hs e = ({ p with state := st, accumulator := a }, n, Except.error er)) := by
  constructor
  · intro st a n er hd
    rw [nextLoop_eq, hd]
  · intro st a n er hd hr
    rw [nextLoop_eq, hd]
    simp [hr]

/-- Claim C6 witness: with an update callback that fails with error 7 and a
render callback that would add 100 to the state, a tick starting with
accumulator 5 and step 1 returns error 7 unchanged and leaves state and
accumulator untouched, so render never ran. -/
theorem next_loop_error_propagation_witness :
    nextLoop ({ accumulator := 5, update_timestep := 1, state := 0,
                update := fun _ => Except.error 7,
                render := fun x _ => Except.ok (x + 100) } : PixelLoop Nat Nat)
        (by decide) 0 =
      (({ accumulator := 5, update_timestep := 1, state := 0,
          update := fun _ => Except.error 7,
          render := fun x _ => Except.ok (x + 100) } : PixelLoop Nat Nat),
        0, Except.error 7) := by
  exact (next_loop_error_propagation Nat Nat
    { accumulator := 5, update_timestep := 1, state := 0,
      update := fun _ => Except.error 7,
      render := fun x _ => Except.ok (x + 100) }
    (by decide) 0).1 0 5 0 7 (by simp [drain])

/-- Claim C7: for every `update_fps > 0`, construction succeeds and sets
`update_timestep` to `round(1_000_000_000 / update_fps)` nanoseconds, i.e.
`⌊(2·10⁹ + fps) / (2·fps)⌋`, which the last two conjuncts characterise as
the rounding: `2·fps·t` lies within `fps` of `2·10⁹` (strictly above on the
low side, so exact halves round up, as `f64::round` does for positive
values). -/
theorem new_update_timestep_round (σ ε : Type) (fps : Nat) (hf : 0 < fps)
    (st0 : σ) (u : σ → Except ε σ) (r : σ → Nat → Except ε σ) :
    ∃ p : PixelLoop σ ε, PixelLoop.new fps st0 u r = some p ∧
      p.update_timestep = (2 * 1000000000 + fps) / (2 * fps) ∧
      2 * 1000000000 < 2 * fps * p.update_timestep + fps ∧
      2 * fps * p.update_timestep ≤ 2 * 1000000000 + fps := by
  refine ⟨{ accumulator := 0, update_timestep := timestepOfFps fps,
            state := st0, update := u, render := r }, ?_, rfl, ?_, ?_⟩
  · rw [PixelLoop.new, if_neg (by omega)]
  · have h1 := Nat.div_add_mod (2 * 1000000000 + fps) (2 * fps)
    have h2 : (2 * 1000000000 + fps) % (2 * fps) < 2 * fps := Nat.mod_lt _ (by omega)
    show 2 * 1000000000 < 2 * fps * ((2 * 1000000000 + fps) / (2 * fps)) + fps
    omega
  · have h1 := Nat.div_add_mod (2 * 1000000000 + fps) (2 * fps)
    show 2 * fps * ((2 * 1000000000 + fps) / (2 * fps)) ≤ 2 * 1000000000 + fps
    omega

/-- Claim C7 witness: `update_fps = 120` yields a step of 8,333,333 ns. -/
theorem new_update_timestep_round_witness :
    (PixelLoop.new 120 0 (fun x : Nat => Except.ok (ε := Unit) x)
        (fun (x : Nat) (_ : Nat) => Except.ok x)).map PixelLoop.update_timestep =
      some 8333333 := by
  obtain ⟨p, h1, h2, _, _⟩ := new_update_timestep_round Nat Unit 120 (by omega) 0
    (fun x => Except.ok x) (fun x _ => Except.ok x)
  rw [h1]
  simp only [Option.map_some']
  rw [h2]

/-- Claim C9: on a freshly constructed `PixelLoop` (accumulator zero), the
first `next_loop` tick invokes the update callback zero times, whatever
elapsed time is measured and whatever the callbacks do, because the drain
loop runs on the accumulator before the tick's `dt` is added to it. -/
theorem first_tick_no_updates (σ ε : Type) (fps : Nat) (st0 : σ)
    (u : σ → Except ε σ) (r : σ → Nat → Except ε σ) (p : PixelLoop σ ε)
    (hp : PixelLoop.new fps st0 u r = some p) (hs : 0 < p.update_timestep)
    (e : Nat) : (nextLoop p hs e).2.1 = 0 := by
  by_cases hf : fps = 0
  · rw [PixelLoop.new, if_pos hf] at hp
    exact absurd hp (by simp)
  · rw [PixelLoop.new, if_neg hf] at hp
    injection hp with hp2
    subst hp2
    rw [nextLoop_eq]
    dsimp only
    have hd : drain u (timestepOfFps fps) hs 0 st0 = (st0, 0, 0, none) := by
      rw [drain, dif_neg (by omega)]
    rw [hd]
    rcases hr : r st0 (clampDt e) with e1 | s2 <;> simp [hd, hr]

/-- Claim C9 witness: the loop `new` builds for 120 fps runs zero updates
on its first tick even after a full second of measured elapsed time. -/
theorem first_tick_no_updates_witness :
    (nextLoop ({ accumulator := 0, update_timestep := 8333333, state := 0,
                 update := fun x => Except.ok (x + 1),
                 render := fun x _ => Except.ok x } : PixelLoop Nat Unit)
        (by decide) 1000000000).2.1 = 0 := by
  exact first_tick_no_updates Nat Unit 120 0 (fun x => Except.ok (x + 1))
    (fun x _ => Except.ok x)
    { accumulator := 0, update_timestep := 8333333, state := 0,
      update := fun x => Except.ok (x + 1),
      render := fun x _ => Except.ok x }
    rfl (by decide) 1000000000

end LoopClaims
